import Mathlib

/-!  Verification of the Fruchterman-Reingold spring-layout solver
     (`sknetwork/embedding/spring.py`, `FruchtermanReingold.fit`).

     Machine floats are modelled by real numbers; numpy arrays of shape
     `(n, 2)` by functions `Fin n → ℝ × ℝ`; the sparse adjacency by a dense
     function `Fin n → Fin n → ℝ` whose stored (nonzero) entries of row `i`
     play the role of `adjacency.indices[indptr[i]:indptr[i+1]]`.  -/

set_option maxHeartbeats 1000000

/-- Clamp of a pairwise distance, line 108:
`distance = np.where(distance < 0.01, 0.01, distance)`. -/
noncomputable def clampDist (d : ℝ) : ℝ := if d < 0.01 then 0.01 else d

/-- Clamp of a per-axis aggregate length, line 117:
`length = np.where(length < 0.01, 0.1, length)`. -/
noncomputable def clampLen (l : ℝ) : ℝ := if l < 0.01 then 0.1 else l

/-- Euclidean distance between two 2-d points, line 107
(`np.linalg.norm(grad, axis=1)` applied to one row of `grad`). -/
noncomputable def dist2 (p q : ℝ × ℝ) : ℝ := Real.sqrt ((p.1 - q.1) ^ 2 + (p.2 - q.2) ^ 2)

/-- Transpose of a square matrix given as a function. -/
def transposeM {n : ℕ} (A : Fin n → Fin n → ℝ) : Fin n → Fin n → ℝ := fun i j => A j i

open Classical in
/-- Modelled from the spec: the symmetry re-check of lines 70-71 calls
`is_symmetric` and `directed2undirected` from `sknetwork.utils`, which are not
under `src/`; per the spec's collaborator contract ("normalizes an arbitrary
adjacency input into the square, symmetric sparse form") a symmetric input is
kept unchanged and a non-symmetric one is replaced by its symmetrization
`A + Aᵀ`. -/
noncomputable def adjUsed {n : ℕ} (A : Fin n → Fin n → ℝ) : Fin n → Fin n → ℝ :=
  if transposeM A = A then A else fun i j => A i j + A j i

open Classical in
/-- Embedding of lines 110-111:
`attraction = np.zeros(n); attraction[indices] *= data * distance[indices] / strength`.
The entries listed in row `i` (the stored entries `A i j ≠ 0`) are multiplied
in place by `data * distance / strength`; all other entries keep their initial
value `0`. -/
noncomputable def attraction {n : ℕ} (A : Fin n → Fin n → ℝ) (pos : Fin n → ℝ × ℝ)
    (strength : ℝ) (i j : Fin n) : ℝ :=
  if A i j ≠ 0 then 0 * (A i j * clampDist (dist2 (pos i) (pos j)) / strength) else 0

/-- Repulsion scalar, line 113: `repulsion = (strength * distance)**2`. -/
noncomputable def repulsion (strength d : ℝ) : ℝ := (strength * d) ^ 2

/-- Net (unclamped) displacement of node `i`, line 115:
`delta[i] = (grad * (repulsion - attraction)[:, np.newaxis]).sum(axis=0)`,
with `grad = pos[i] - pos` (line 106). -/
noncomputable def rawDelta {n : ℕ} (A : Fin n → Fin n → ℝ) (pos : Fin n → ℝ × ℝ)
    (strength : ℝ) (i : Fin n) : ℝ × ℝ :=
  (∑ j, ((pos i).1 - (pos j).1) *
      (repulsion strength (clampDist (dist2 (pos i) (pos j))) - attraction A pos strength i j),
   ∑ j, ((pos i).2 - (pos j).2) *
      (repulsion strength (clampDist (dist2 (pos i) (pos j))) - attraction A pos strength i j))

/-- First-axis column norm of the displacement array, line 116
(`np.linalg.norm(delta, axis=0)`, entry 0). -/
noncomputable def colNormFst {n : ℕ} (delta : Fin n → ℝ × ℝ) : ℝ :=
  Real.sqrt (∑ i, (delta i).1 ^ 2)

/-- Second-axis column norm of the displacement array, line 116
(`np.linalg.norm(delta, axis=0)`, entry 1). -/
noncomputable def colNormSnd {n : ℕ} (delta : Fin n → ℝ × ℝ) : ℝ :=
  Real.sqrt (∑ i, (delta i).2 ^ 2)

/-- Globally normalized displacement, lines 116-118:
`delta = delta * step_max / length` with the clamped per-axis lengths. -/
noncomputable def scaleDelta {n : ℕ} (delta : Fin n → ℝ × ℝ) (stepMax : ℝ) (i : Fin n) :
    ℝ × ℝ :=
  ((delta i).1 * stepMax / clampLen (colNormFst delta),
   (delta i).2 * stepMax / clampLen (colNormSnd delta))

/-- Frobenius norm of the displacement array, line 121 (`np.linalg.norm(delta)`). -/
noncomputable def frobNorm {n : ℕ} (delta : Fin n → ℝ × ℝ) : ℝ :=
  Real.sqrt (∑ i, ((delta i).1 ^ 2 + (delta i).2 ^ 2))

/-- Scalar simulation state carried across iterations of the loop of line 100,
together with the number of completed iterations. -/
structure SimState (n : ℕ) where
  pos : Fin n → ℝ × ℝ
  stepMax : ℝ
  iters : ℕ

/-- One execution of the loop body, lines 101-121: force computation,
normalization, in-place position update, cooling; the returned scalar is
`err = np.linalg.norm(delta) / n` used by the convergence check. -/
noncomputable def iterStep {n : ℕ} (A : Fin n → Fin n → ℝ) (strength step : ℝ)
    (s : SimState n) : SimState n × ℝ :=
  let delta := scaleDelta (rawDelta A s.pos strength) s.stepMax
  (⟨fun i => s.pos i + delta i, s.stepMax - step, s.iters + 1⟩, frobNorm delta / (n : ℝ))

/-- The simulation loop, lines 100-123, with the convergence break of
lines 122-123 taken after the position update and the cooling step. -/
noncomputable def simLoop {n : ℕ} (A : Fin n → Fin n → ℝ) (strength tol step : ℝ) :
    ℕ → SimState n → SimState n
  | 0, s => s
  | k + 1, s =>
    let r := iterStep A strength step s
    if r.2 < tol then r.1 else simLoop A strength tol step k r.1

/-- Maximum of a coordinate column, lines 95-96 (`pos[:, a].max()`). -/
noncomputable def colMax {n : ℕ} [NeZero n] (f : Fin n → ℝ) : ℝ :=
  Finset.univ.sup' ⟨⟨0, Nat.pos_of_ne_zero (NeZero.ne n)⟩, Finset.mem_univ _⟩ f

/-- Minimum of a coordinate column, lines 95-96 (`pos[:, a].min()`). -/
noncomputable def colMin {n : ℕ} [NeZero n] (f : Fin n → ℝ) : ℝ :=
  Finset.univ.inf' ⟨⟨0, Nat.pos_of_ne_zero (NeZero.ne n)⟩, Finset.mem_univ _⟩ f

/-- Initial value of `step_max`, lines 95-97: ten percent of the larger of the
two per-axis position spreads. -/
noncomputable def initStepMax {n : ℕ} [NeZero n] (pos : Fin n → ℝ × ℝ) : ℝ :=
  0.1 * max (colMax (fun i => (pos i).1) - colMin (fun i => (pos i).1))
            (colMax (fun i => (pos i).2) - colMin (fun i => (pos i).2))

/-- The simulation state reached after `k` loop executions of a run configured
with iteration budget `nIter`, started from positions `pos₀` (lines 95-123). -/
noncomputable def runState {n : ℕ} [NeZero n] (A : Fin n → Fin n → ℝ)
    (strength tol : ℝ) (nIter k : ℕ) (pos₀ : Fin n → ℝ × ℝ) : SimState n :=
  simLoop A strength tol (initStepMax pos₀ / ((nIter : ℝ) + 1)) k
    ⟨pos₀, initStepMax pos₀, 0⟩

/-- A dense numpy array of arbitrary two-dimensional shape, as passed for
`pos_init`. -/
structure NArr2 where
  rows : ℕ
  cols : ℕ
  entry : Fin rows → Fin cols → ℝ

/-- Extraction of the initial positions from a `pos_init` array of the valid
shape `(n, 2)`, line 81 (`pos = pos_init.copy()`). -/
def posOf (n : ℕ) (p : NArr2) (h1 : p.rows = n) (h2 : p.cols = 2) : Fin n → ℝ × ℝ :=
  fun i => (p.entry (Fin.cast h1.symm i) (Fin.cast h2.symm 0),
            p.entry (Fin.cast h1.symm i) (Fin.cast h2.symm 1))

/-- The `fit` entry point on the explicit `pos_init` path, lines 68-126: the
adjacency is symmetrized if needed (lines 70-71), the supplied positions are
shape-checked (lines 79-83, raising `ValueError` on a wrong shape), and the
simulation loop runs for at most `nIter` iterations. -/
noncomputable def fit (n : ℕ) [NeZero n] (A : Fin n → Fin n → ℝ) (p : NArr2)
    (nIter : ℕ) (strength tol : ℝ) : Except String (Fin n → ℝ × ℝ) :=
  if h : p.rows = n ∧ p.cols = 2 then
    Except.ok (runState (adjUsed A) strength tol nIter nIter (posOf n p h.1 h.2)).pos
  else
    Except.error "Initial position has invalid shape."

/-- Euclidean magnitude of a single node's 2-d displacement vector. -/
noncomputable def nodeNorm (v : ℝ × ℝ) : ℝ := Real.sqrt (v.1 ^ 2 + v.2 ^ 2)

/-- Write to one array reference of a store of position arrays. -/
def writeStore {n : ℕ} (σ : ℕ → Fin n → ℝ × ℝ) (r : ℕ) (v : Fin n → ℝ × ℝ) :
    ℕ → Fin n → ℝ × ℝ :=
  fun q => if q = r then v else σ q

/-- Heap-level model of the simulation loop: the in-place update
`pos += delta` of line 119 writes only to the array reference `r`. -/
noncomputable def loopHeap {n : ℕ} (A : Fin n → Fin n → ℝ) (strength tol step : ℝ)
    (r : ℕ) : ℕ → (ℕ → Fin n → ℝ × ℝ) → ℝ → ((ℕ → Fin n → ℝ × ℝ) × ℝ)
  | 0, σ, sm => (σ, sm)
  | k + 1, σ, sm =>
    let delta := scaleDelta (rawDelta A (σ r) strength) sm
    let σ2 := writeStore σ r (fun i => σ r i + delta i)
    if frobNorm delta / (n : ℝ) < tol then (σ2, sm - step)
    else loopHeap A strength tol step r k σ2 (sm - step)

/-- Heap-level model of the explicit-`pos_init` path of `fit`: the copy
`pos = pos_init.copy()` of line 81 is a fresh allocation at reference `nxt`,
and the loop then mutates only that fresh reference.  Returns the final store
and the reference holding the embedding. -/
noncomputable def fitHeap {n : ℕ} [NeZero n] (A : Fin n → Fin n → ℝ)
    (strength tol : ℝ) (nIter : ℕ) (σ : ℕ → Fin n → ℝ × ℝ) (nxt c : ℕ) :
    ((ℕ → Fin n → ℝ × ℝ) × ℕ) :=
  let σ1 := writeStore σ nxt (σ c)
  let sm := initStepMax (σ1 nxt)
  ((loopHeap A strength tol (sm / ((nIter : ℝ) + 1)) nxt nIter σ1 sm).1, nxt)

/-- The empty 1-node adjacency. -/
def A1 : Fin 1 → Fin 1 → ℝ := fun _ _ => 0

/-- A single node sitting at the origin. -/
def pos1 : Fin 1 → ℝ × ℝ := fun _ => (0, 0)

/-- Two nodes joined by a single symmetric edge of weight `w`. -/
def edge2 (w : ℝ) : Fin 2 → Fin 2 → ℝ := fun i j => if i = j then 0 else w

/-- Two nodes at `(0,0)` and `(3,4)` (distance `5`). -/
def pos2e : Fin 2 → ℝ × ℝ := ![(0, 0), (3, 4)]

/-- A non-symmetric 2-node adjacency: a single directed edge `0 → 1`. -/
def A2n : Fin 2 → Fin 2 → ℝ := fun i j => if i = 0 ∧ j = 1 then 1 else 0

/-- The empty 3-node adjacency. -/
def A3z : Fin 3 → Fin 3 → ℝ := fun _ _ => 0

/-- Three nodes: one at `(1,1)` on the diagonal, two coincident at the origin. -/
def pos3 : Fin 3 → ℝ × ℝ := ![(1, 1), (0, 0), (0, 0)]

/-! ## General lemmas about the loop-body computations -/

/-- Line 111 multiplies a zero-initialized array in place, so every entry of
the attraction array is zero, neighbor or not. -/
lemma attraction_eq_zero {n : ℕ} (A : Fin n → Fin n → ℝ) (pos : Fin n → ℝ × ℝ)
    (strength : ℝ) (i j : Fin n) : attraction A pos strength i j = 0 := by
  unfold attraction
  split <;> simp

lemma clampDist_ge (d : ℝ) : (0.01 : ℝ) ≤ clampDist d := by
  unfold clampDist
  split
  · norm_num
  · linarith [not_lt.mp (by assumption : ¬ d < 0.01)]

lemma clampLen_ge (l : ℝ) : (0.01 : ℝ) ≤ clampLen l := by
  unfold clampLen
  split
  · norm_num
  · linarith [not_lt.mp (by assumption : ¬ l < 0.01)]

lemma clampDist_pos (d : ℝ) : 0 < clampDist d :=
  lt_of_lt_of_le (by norm_num) (clampDist_ge d)

lemma clampLen_pos (l : ℝ) : 0 < clampLen l :=
  lt_of_lt_of_le (by norm_num) (clampLen_ge l)

lemma dist2_comm (p q : ℝ × ℝ) : dist2 p q = dist2 q p := by
  unfold dist2
  ring_nf

/-- One first-axis entry is bounded by the first-axis column norm. -/
lemma abs_fst_le_colNormFst {n : ℕ} (delta : Fin n → ℝ × ℝ) (i : Fin n) :
    |(delta i).1| ≤ colNormFst delta := by
  have h : (delta i).1 ^ 2 ≤ ∑ j, (delta j).1 ^ 2 :=
    Finset.single_le_sum (f := fun j => (delta j).1 ^ 2)
      (fun j _ => sq_nonneg _) (Finset.mem_univ i)
  calc |(delta i).1| = Real.sqrt ((delta i).1 ^ 2) := (Real.sqrt_sq_eq_abs _).symm
    _ ≤ colNormFst delta := Real.sqrt_le_sqrt h

/-- One second-axis entry is bounded by the second-axis column norm. -/
lemma abs_snd_le_colNormSnd {n : ℕ} (delta : Fin n → ℝ × ℝ) (i : Fin n) :
    |(delta i).2| ≤ colNormSnd delta := by
  have h : (delta i).2 ^ 2 ≤ ∑ j, (delta j).2 ^ 2 :=
    Finset.single_le_sum (f := fun j => (delta j).2 ^ 2)
      (fun j _ => sq_nonneg _) (Finset.mem_univ i)
  calc |(delta i).2| = Real.sqrt ((delta i).2 ^ 2) := (Real.sqrt_sq_eq_abs _).symm
    _ ≤ colNormSnd delta := Real.sqrt_le_sqrt h

/-- Scaling one entry by `stepMax / clampLen L` keeps it within `stepMax` in
absolute value whenever the entry is bounded by `L`. -/
lemma scale_axis_bound (x L s : ℝ) (hx : |x| ≤ L) (hs : 0 ≤ s) :
    |x * s / clampLen L| ≤ s := by
  unfold clampLen
  split
  · have hx1 : |x| < 0.01 := lt_of_le_of_lt hx (by assumption)
    rw [abs_div, abs_mul, abs_of_nonneg hs, abs_of_pos (show (0:ℝ) < 0.1 by norm_num),
      div_le_iff₀ (show (0:ℝ) < 0.1 by norm_num)]
    nlinarith [abs_nonneg x]
  · have hL : (0.01 : ℝ) ≤ L := not_lt.mp (by assumption)
    have hL0 : (0 : ℝ) < L := lt_of_lt_of_le (by norm_num) hL
    rw [abs_div, abs_mul, abs_of_nonneg hs, abs_of_pos hL0, div_le_iff₀ hL0]
    nlinarith [abs_nonneg x]

/-! ## The degenerate single-node iteration -/

/-- On a single-node graph the gradient is identically zero, so the raw
displacement vanishes whatever the adjacency and strength. -/
lemma rawDelta_fin1 (A : Fin 1 → Fin 1 → ℝ) (pos : Fin 1 → ℝ × ℝ) (strength : ℝ)
    (i : Fin 1) : rawDelta A pos strength i = (0, 0) := by
  have hi : i = 0 := Subsingleton.elim i 0
  subst hi
  unfold rawDelta
  rw [Fin.sum_univ_one, Fin.sum_univ_one]
  simp

/-- Scaling an identically-zero displacement array yields zero. -/
lemma scaleDelta_of_zero {n : ℕ} (delta : Fin n → ℝ × ℝ) (stepMax : ℝ)
    (h : ∀ i, delta i = (0, 0)) (i : Fin n) : scaleDelta delta stepMax i = (0, 0) := by
  unfold scaleDelta
  rw [h i]
  simp

/-- One loop-body execution on a single-node graph: positions are unchanged,
cooling still happens, and the reported error is zero. -/
lemma iterStep_fin1 (A : Fin 1 → Fin 1 → ℝ) (strength step : ℝ) (s : SimState 1) :
    iterStep A strength step s = (⟨s.pos, s.stepMax - step, s.iters + 1⟩, 0) := by
  unfold iterStep
  have hz : ∀ i, scaleDelta (rawDelta A s.pos strength) s.stepMax i = (0, 0) :=
    scaleDelta_of_zero _ _ (rawDelta_fin1 A s.pos strength)
  have hpos : (fun i => s.pos i + scaleDelta (rawDelta A s.pos strength) s.stepMax i)
      = s.pos := by
    funext i
    rw [hz i]
    simp [Prod.ext_iff]
  have herr : frobNorm (scaleDelta (rawDelta A s.pos strength) s.stepMax) = 0 := by
    unfold frobNorm
    rw [Fin.sum_univ_one, hz 0]
    simp
  simp only [hpos, herr, zero_div]

/-! ## The cooling schedule -/

/-- Unfolding of one loop round. -/
lemma simLoop_succ {n : ℕ} (A : Fin n → Fin n → ℝ) (strength tol step : ℝ)
    (k : ℕ) (s : SimState n) :
    simLoop A strength tol step (k + 1) s =
      if (iterStep A strength step s).2 < tol then (iterStep A strength step s).1
      else simLoop A strength tol step k (iterStep A strength step s).1 := rfl

lemma iterStep_fst_iters {n : ℕ} (A : Fin n → Fin n → ℝ) (strength step : ℝ)
    (s : SimState n) : (iterStep A strength step s).1.iters = s.iters + 1 := rfl

lemma iterStep_fst_stepMax {n : ℕ} (A : Fin n → Fin n → ℝ) (strength step : ℝ)
    (s : SimState n) : (iterStep A strength step s).1.stepMax = s.stepMax - step := rfl

/-- Along any prefix of the loop the completed-iteration count `m` determines
`step_max` exactly: it has been decremented `m` times. -/
lemma simLoop_sched {n : ℕ} (A : Fin n → Fin n → ℝ) (strength tol step : ℝ) :
    ∀ (k : ℕ) (s : SimState n), ∃ m : ℕ, m ≤ k ∧
      (simLoop A strength tol step k s).iters = s.iters + m ∧
      (simLoop A strength tol step k s).stepMax = s.stepMax - m * step := by
  intro k
  induction k with
  | zero =>
    intro s
    exact ⟨0, le_refl 0, by simp [simLoop], by simp [simLoop]⟩
  | succ k ih =>
    intro s
    by_cases h : (iterStep A strength step s).2 < tol
    · refine ⟨1, by omega, ?_, ?_⟩ <;>
        rw [simLoop_succ, if_pos h]
      · rw [iterStep_fst_iters]
      · rw [iterStep_fst_stepMax]
        push_cast
        ring
    · obtain ⟨m, hm, hiters, hstep⟩ := ih (iterStep A strength step s).1
      refine ⟨m + 1, by omega, ?_, ?_⟩
      · rw [simLoop_succ, if_neg h, hiters, iterStep_fst_iters]
        omega
      · rw [simLoop_succ, if_neg h, hstep, iterStep_fst_stepMax]
        push_cast
        ring

/-- The initial `step_max` of lines 95-97 is nonnegative: each per-axis spread
is a maximum minus a minimum over the same column. -/
lemma initStepMax_nonneg {n : ℕ} [NeZero n] (pos : Fin n → ℝ × ℝ) :
    0 ≤ initStepMax pos := by
  have key : ∀ f : Fin n → ℝ, 0 ≤ colMax f - colMin f := by
    intro f
    have h1 : colMin f ≤ f ⟨0, Nat.pos_of_ne_zero (NeZero.ne n)⟩ :=
      Finset.inf'_le _ (Finset.mem_univ _)
    have h2 : f ⟨0, Nat.pos_of_ne_zero (NeZero.ne n)⟩ ≤ colMax f :=
      Finset.le_sup' _ (Finset.mem_univ _)
    linarith
  unfold initStepMax
  have := key (fun i => (pos i).1)
  have h := le_trans this (le_max_left _ ((colMax fun i => (pos i).2) - colMin fun i => (pos i).2))
  nlinarith

/-! ## Antisymmetry on two-node graphs -/

/-- Per-axis scaling preserves the antisymmetry `delta 1 = -delta 0` of a
two-node displacement array. -/
lemma scaleDelta_neg2 (delta : Fin 2 → ℝ × ℝ) (stepMax : ℝ)
    (h : delta 1 = -delta 0) :
    scaleDelta delta stepMax 1 = -scaleDelta delta stepMax 0 := by
  unfold scaleDelta
  rw [h]
  simp [Prod.ext_iff]
  constructor <;> ring

/-! ## Evaluation helpers for concrete inputs -/

lemma clampDist_eq_of_ge {d : ℝ} (h : (0.01 : ℝ) ≤ d) : clampDist d = d := by
  unfold clampDist
  rw [if_neg (not_lt.mpr h)]

lemma clampLen_eq_of_ge {l : ℝ} (h : (0.01 : ℝ) ≤ l) : clampLen l = l := by
  unfold clampLen
  rw [if_neg (not_lt.mpr h)]

lemma one_le_sqrt_of_one_le {x : ℝ} (hx : 1 ≤ x) : 1 ≤ Real.sqrt x := by
  calc (1 : ℝ) = Real.sqrt 1 := Real.sqrt_one.symm
    _ ≤ Real.sqrt x := Real.sqrt_le_sqrt hx

/-! ## C1: the attraction term -/

/-- C1: the claim says the attraction applied to each neighbor `j` of `i`
equals `edge_weight(i,j) * clamped_distance(i,j) / strength`.  The code
multiplies a zero-initialized array in place (line 111 uses `*=`), so the
attraction actually applied to the neighbor is `0`: here, on a 2-node graph
with edge weight 1, positions `(0,0)` and `(3,4)` and strength 1, the code
yields attraction `0` for neighbor `1` of node `0` while the claimed value is
`1 * 5 / 1 = 5`. -/
theorem c1_attraction_bug :
    attraction (edge2 1) pos2e 1 0 1 = 0 ∧
    edge2 1 0 1 * clampDist (dist2 (pos2e 0) (pos2e 1)) / 1 = 5 := by
  refine ⟨attraction_eq_zero _ _ _ _ _, ?_⟩
  have hd : dist2 (pos2e 0) (pos2e 1) = 5 := by
    show Real.sqrt (((0:ℝ) - 3) ^ 2 + ((0:ℝ) - 4) ^ 2) = 5
    rw [show ((0:ℝ) - 3) ^ 2 + ((0:ℝ) - 4) ^ 2 = 5 ^ 2 by norm_num,
      Real.sqrt_sq (by norm_num)]
  rw [hd, clampDist_eq_of_ge (by norm_num : (0.01 : ℝ) ≤ 5)]
  show (1 : ℝ) * 5 / 1 = 5
  norm_num

/-! ## C2: the adjacency used by the force loop -/

/-- C2 counterexample: the claim says the matrix used in the force loop equals
the (format-checked) input even when that input is not symmetric.  For the
non-symmetric single directed edge `0 → 1` the solver replaces the input by
its symmetrization (lines 70-71), so the matrix used differs from the input. -/
theorem c2_counterexample : adjUsed A2n ≠ A2n := by
  intro h
  have hns : transposeM A2n ≠ A2n := by
    intro he
    have h01 := congrFun (congrFun he 0) 1
    have : (0 : ℝ) = 1 := by
      simp [transposeM, A2n] at h01
    norm_num at this
  have h10 : adjUsed A2n 1 0 = A2n 1 0 := by rw [h]
  unfold adjUsed at h10
  rw [if_neg hns] at h10
  have : (0 : ℝ) + 1 = 0 := by
    simp [A2n] at h10
  norm_num at this

/-- C2 (amended): the solver re-checks symmetry itself; a symmetric input is
used in the force loop as received, and the matrix used in the loop is always
symmetric (a non-symmetric input having been replaced by its symmetrization). -/
theorem c2_adjacency_used (n : ℕ) (A B : Fin n → Fin n → ℝ)
    (h : transposeM A = A) :
    adjUsed A = A ∧ transposeM (adjUsed B) = adjUsed B := by
  constructor
  · unfold adjUsed
    rw [if_pos h]
  · unfold adjUsed
    split
    · assumption
    · funext i j
      show B j i + B i j = B i j + B j i
      ring

/-- Witness for C2 (amended) at a symmetric 2-node input. -/
theorem c2_adjacency_used_witness :
    transposeM (edge2 1) = edge2 1 ∧
    (adjUsed (edge2 1) = edge2 1 ∧ transposeM (adjUsed A2n) = adjUsed A2n) := by
  have h : transposeM (edge2 1) = edge2 1 := by
    funext i j
    simp [transposeM, edge2, eq_comm]
  exact ⟨h, c2_adjacency_used 2 (edge2 1) A2n h⟩

/-! ## C6: antisymmetry of the two-node force law -/

/-- C6: on a two-node graph with a single symmetric edge of weight `w`, the
net (unclamped) displacement of node 1 is the negation of that of node 0, and
the per-axis global normalization preserves this antisymmetry, at every
reachable position state. -/
theorem c6_force_antisymmetry (w strength stepMax : ℝ) (pos : Fin 2 → ℝ × ℝ) :
    rawDelta (edge2 w) pos strength 1 = -rawDelta (edge2 w) pos strength 0 ∧
    scaleDelta (rawDelta (edge2 w) pos strength) stepMax 1 =
      -scaleDelta (rawDelta (edge2 w) pos strength) stepMax 0 := by
  have hraw : rawDelta (edge2 w) pos strength 1 = -rawDelta (edge2 w) pos strength 0 := by
    unfold rawDelta
    simp only [Fin.sum_univ_two, attraction_eq_zero, sub_zero]
    rw [dist2_comm (pos 1) (pos 0)]
    simp only [Prod.neg_mk, Prod.mk.injEq]
    constructor <;> ring
  exact ⟨hraw, scaleDelta_neg2 _ _ hraw⟩

/-! ## C9: totality of the loop body -/

/-- C9: once the loop is entered with a positive strength, every divisor in
the loop body is bounded away from zero: the clamped pairwise distances and
the clamped per-axis lengths are at least `0.01`, and `strength` and the node
count are nonzero; hence no division in the body can fail. -/
theorem c9_loop_body_total (n : ℕ) (hn : 0 < n) (strength : ℝ) (hs : 0 < strength)
    (pos : Fin n → ℝ × ℝ) (delta : Fin n → ℝ × ℝ) (i j : Fin n) :
    (0.01 : ℝ) ≤ clampDist (dist2 (pos i) (pos j)) ∧
    (0.01 : ℝ) ≤ clampLen (colNormFst delta) ∧
    (0.01 : ℝ) ≤ clampLen (colNormSnd delta) ∧
    strength ≠ 0 ∧ ((n : ℝ)) ≠ 0 := by
  refine ⟨clampDist_ge _, clampLen_ge _, clampLen_ge _, ne_of_gt hs, ?_⟩
  have : (0 : ℝ) < (n : ℝ) := by exact_mod_cast hn
  exact ne_of_gt this

/-- Witness for C9 on a concrete single-node state. -/
theorem c9_loop_body_total_witness :
    (0 < 1) ∧ ((0 : ℝ) < 1) ∧
    ((0.01 : ℝ) ≤ clampDist (dist2 (pos1 0) (pos1 0)) ∧
     (0.01 : ℝ) ≤ clampLen (colNormFst pos1) ∧
     (0.01 : ℝ) ≤ clampLen (colNormSnd pos1) ∧
     (1 : ℝ) ≠ 0 ∧ ((1 : ℕ) : ℝ) ≠ 0) :=
  ⟨by norm_num, by norm_num, c9_loop_body_total 1 (by norm_num) 1 (by norm_num) pos1 pos1 0 0⟩

/-! ## C4: convergence short-circuit -/

/-- C4: if the tolerance exceeds the error the first loop execution reports
(in particular whenever it exceeds every displacement magnitude the simulation
can produce) and the iteration budget is at least one, the loop performs
exactly one iteration — one position update with its cooling step — and
stops. -/
theorem c4_convergence_short_circuit {n : ℕ} (A : Fin n → Fin n → ℝ)
    (strength tol step : ℝ) (k : ℕ) (s : SimState n)
    (h : (iterStep A strength step s).2 < tol) :
    simLoop A strength tol step (k + 1) s = (iterStep A strength step s).1 ∧
    (simLoop A strength tol step (k + 1) s).iters = s.iters + 1 := by
  constructor
  · rw [simLoop_succ, if_pos h]
  · rw [simLoop_succ, if_pos h, iterStep_fst_iters]

/-- Witness for C4: a single-node run reports error `0`, below tolerance `1`,
so a budget of one iteration is exhausted after exactly one iteration. -/
theorem c4_convergence_short_circuit_witness :
    (iterStep A1 1 0 ⟨pos1, 0, 0⟩).2 < 1 ∧
    (simLoop A1 1 1 0 (0 + 1) ⟨pos1, 0, 0⟩ = (iterStep A1 1 0 ⟨pos1, 0, 0⟩).1 ∧
     (simLoop A1 1 1 0 (0 + 1) ⟨pos1, 0, 0⟩).iters = (0 : ℕ) + 1) := by
  have h : (iterStep A1 1 0 ⟨pos1, 0, 0⟩).2 < 1 := by
    rw [iterStep_fin1]
    norm_num
  exact ⟨h, c4_convergence_short_circuit A1 1 1 0 0 ⟨pos1, 0, 0⟩ h⟩

/-! ## C7: rejection of malformed initial positions -/

/-- C7: an explicit initial-position array whose shape is not exactly `(n, 2)`
makes the solver fail with the configuration error of line 83 before any
simulation work, producing no embedding. -/
theorem c7_invalid_shape_rejected (n : ℕ) [NeZero n] (A : Fin n → Fin n → ℝ)
    (p : NArr2) (nIter : ℕ) (strength tol : ℝ)
    (h : ¬(p.rows = n ∧ p.cols = 2)) :
    fit n A p nIter strength tol = Except.error "Initial position has invalid shape." := by
  unfold fit
  rw [dif_neg h]

/-- Witness for C7: a `(2, 2)` array supplied for a 1-node graph is refused. -/
theorem c7_invalid_shape_rejected_witness :
    ¬((⟨2, 2, fun _ _ => 0⟩ : NArr2).rows = 1 ∧ (⟨2, 2, fun _ _ => 0⟩ : NArr2).cols = 2) ∧
    fit 1 A1 ⟨2, 2, fun _ _ => 0⟩ 3 1 1 =
      Except.error "Initial position has invalid shape." :=
  ⟨by decide, c7_invalid_shape_rejected 1 A1 ⟨2, 2, fun _ _ => 0⟩ 3 1 1 (by decide)⟩

/-! ## C8: zero iterations return the initial positions -/

/-- C8: with a well-shaped explicit initial-position array and an iteration
budget of zero, the solver performs no iteration and returns exactly the
supplied positions. -/
theorem c8_zero_iterations (n : ℕ) [NeZero n] (A : Fin n → Fin n → ℝ) (p : NArr2)
    (strength tol : ℝ) (h1 : p.rows = n) (h2 : p.cols = 2) :
    fit n A p 0 strength tol = Except.ok (posOf n p h1 h2) := by
  unfold fit
  rw [dif_pos ⟨h1, h2⟩]
  rfl

/-- Witness for C8: a constant `(1, 2)` array is returned unchanged. -/
theorem c8_zero_iterations_witness :
    fit 1 A1 ⟨1, 2, fun _ _ => 5⟩ 0 1 1 =
      Except.ok (posOf 1 ⟨1, 2, fun _ _ => 5⟩ rfl rfl) :=
  c8_zero_iterations 1 A1 ⟨1, 2, fun _ _ => 5⟩ 1 1 rfl rfl

/-! ## C10: the caller's array is never mutated -/

lemma writeStore_ne {n : ℕ} (σ : ℕ → Fin n → ℝ × ℝ) (r c : ℕ) (v : Fin n → ℝ × ℝ)
    (h : c ≠ r) : writeStore σ r v c = σ c := by
  unfold writeStore
  rw [if_neg h]

/-- Unfolding of one heap-level loop round. -/
lemma loopHeap_succ {n : ℕ} (A : Fin n → Fin n → ℝ) (strength tol step : ℝ)
    (r k : ℕ) (σ : ℕ → Fin n → ℝ × ℝ) (sm : ℝ) :
    loopHeap A strength tol step r (k + 1) σ sm =
      (let delta := scaleDelta (rawDelta A (σ r) strength) sm
       let σ2 := writeStore σ r (fun i => σ r i + delta i)
       if frobNorm delta / (n : ℝ) < tol then (σ2, sm - step)
       else loopHeap A strength tol step r k σ2 (sm - step)) := rfl

/-- The heap-level loop writes only to the position reference `r`. -/
lemma loopHeap_frame {n : ℕ} (A : Fin n → Fin n → ℝ) (strength tol step : ℝ)
    (r c : ℕ) (hrc : c ≠ r) :
    ∀ (k : ℕ) (σ : ℕ → Fin n → ℝ × ℝ) (sm : ℝ),
      (loopHeap A strength tol step r k σ sm).1 c = σ c := by
  intro k
  induction k with
  | zero => intro σ sm; rfl
  | succ k ih =>
    intro σ sm
    rw [loopHeap_succ]
    by_cases h : frobNorm (scaleDelta (rawDelta A (σ r) strength) sm) / (n : ℝ) < tol
    · simp only [if_pos h]
      exact writeStore_ne σ r c _ hrc
    · simp only [if_neg h]
      rw [ih]
      exact writeStore_ne σ r c _ hrc

/-- C10: the caller's position array is copied (line 81) into a fresh
reference and the in-place updates of line 119 touch only that copy, so after
the call any live caller reference `c` still holds exactly its original
array, however many iterations were performed. -/
theorem c10_caller_array_not_mutated (n : ℕ) [NeZero n] (A : Fin n → Fin n → ℝ)
    (strength tol : ℝ) (nIter : ℕ) (σ : ℕ → Fin n → ℝ × ℝ) (nxt c : ℕ)
    (hc : c < nxt) :
    (fitHeap A strength tol nIter σ nxt c).1 c = σ c := by
  have hcn : c ≠ nxt := Nat.ne_of_lt hc
  unfold fitHeap
  rw [loopHeap_frame A strength tol _ nxt c hcn]
  exact writeStore_ne σ nxt c _ hcn

/-- Witness for C10: one full iteration on a single-node store leaves the
caller's array at reference `0` untouched. -/
theorem c10_caller_array_not_mutated_witness :
    (0 < 1) ∧ (fitHeap A1 1 1 2 (fun _ => pos1) 1 0).1 0 = pos1 :=
  ⟨by norm_num, c10_caller_array_not_mutated 1 A1 1 1 2 (fun _ => pos1) 1 0 (by norm_num)⟩

/-! ## C5: the cooling schedule -/

lemma colMax_fin1 (f : Fin 1 → ℝ) : colMax f = f 0 := by
  apply le_antisymm
  · apply Finset.sup'_le
    intro i _
    rw [show i = 0 from Subsingleton.elim i 0]
  · exact Finset.le_sup' f (Finset.mem_univ 0)

lemma colMin_fin1 (f : Fin 1 → ℝ) : colMin f = f 0 := by
  apply le_antisymm
  · exact Finset.inf'_le f (Finset.mem_univ 0)
  · apply Finset.le_inf'
    intro i _
    rw [show i = 0 from Subsingleton.elim i 0]

/-- A single node at the origin has zero spread, hence zero initial
`step_max` and hence a zero cooling decrement. -/
lemma initStepMax_pos1 : initStepMax pos1 = 0 := by
  unfold initStepMax
  rw [colMax_fin1, colMin_fin1, colMax_fin1, colMin_fin1]
  norm_num [pos1]

/-- C5 (amended): after `k ≤ max_iterations` completed iterations `step_max`
equals `initial_step_max - iters * step` with
`step = initial_step_max / (max_iterations + 1)`; it changes by exactly the
constant `step` each iteration, never goes negative within the budget, and
the per-iteration decrease is strict whenever the initial `step_max` is
positive. -/
theorem c5_cooling_schedule (n : ℕ) [NeZero n] (A : Fin n → Fin n → ℝ)
    (strength tol : ℝ) (nIter k : ℕ) (pos₀ : Fin n → ℝ × ℝ) (hk : k ≤ nIter) :
    (runState A strength tol nIter k pos₀).stepMax
        = initStepMax pos₀ - (runState A strength tol nIter k pos₀).iters
            * (initStepMax pos₀ / ((nIter : ℝ) + 1)) ∧
    0 ≤ (runState A strength tol nIter k pos₀).stepMax ∧
    (0 < initStepMax pos₀ → 0 < initStepMax pos₀ / ((nIter : ℝ) + 1)) := by
  obtain ⟨m, hm, hiters, hstep⟩ := simLoop_sched A strength tol
    (initStepMax pos₀ / ((nIter : ℝ) + 1)) k ⟨pos₀, initStepMax pos₀, 0⟩
  have hrs : runState A strength tol nIter k pos₀
      = simLoop A strength tol (initStepMax pos₀ / ((nIter : ℝ) + 1)) k
          ⟨pos₀, initStepMax pos₀, 0⟩ := rfl
  rw [hrs]
  have h0 : 0 ≤ initStepMax pos₀ := initStepMax_nonneg pos₀
  have hm' : (m : ℝ) ≤ (nIter : ℝ) := by exact_mod_cast le_trans hm hk
  have hNpos : (0 : ℝ) < (nIter : ℝ) + 1 := by positivity
  refine ⟨?_, ?_, ?_⟩
  · rw [hstep, hiters]
    push_cast
    ring
  · rw [hstep]
    rw [sub_nonneg, mul_div_assoc', div_le_iff₀ hNpos]
    nlinarith [mul_nonneg (sub_nonneg.mpr hm') h0]
  · intro h
    positivity

/-- Witness for C5 (amended) on a zero-budget single-node run. -/
theorem c5_cooling_schedule_witness :
    ((0 : ℕ) ≤ 0) ∧
    ((runState A1 1 1 0 0 pos1).stepMax
        = initStepMax pos1 - (runState A1 1 1 0 0 pos1).iters
            * (initStepMax pos1 / (((0 : ℕ) : ℝ) + 1)) ∧
     0 ≤ (runState A1 1 1 0 0 pos1).stepMax ∧
     (0 < initStepMax pos1 → 0 < initStepMax pos1 / (((0 : ℕ) : ℝ) + 1))) :=
  ⟨le_refl 0, c5_cooling_schedule 1 A1 1 1 0 0 pos1 (le_refl 0)⟩

/-- C5 counterexample: the claim's "step_max strictly decreases every
iteration" fails on a run that starts from a single node at the origin: the
initial `step_max` is `0`, so the decrement is `0` and after one completed
iteration `step_max` has not strictly decreased. -/
theorem c5_counterexample :
    (runState A1 1 0 1 1 pos1).iters = 1 ∧
    ¬((runState A1 1 0 1 1 pos1).stepMax < initStepMax pos1) := by
  have hrs : runState A1 1 0 1 1 pos1
      = simLoop A1 1 0 (initStepMax pos1 / (((1 : ℕ) : ℝ) + 1)) 1
          ⟨pos1, initStepMax pos1, 0⟩ := rfl
  have hz : initStepMax pos1 / (((1 : ℕ) : ℝ) + 1) = 0 := by
    rw [initStepMax_pos1]
    norm_num
  have hone : ∀ (tol : ℝ) (s : SimState 1), simLoop A1 1 tol 0 1 s = (iterStep A1 1 0 s).1 := by
    intro tol s
    show simLoop A1 1 tol 0 (0 + 1) s = (iterStep A1 1 0 s).1
    rw [simLoop_succ]
    split <;> rfl
  rw [hrs, hz, initStepMax_pos1, hone, iterStep_fin1]
  norm_num

/-! ## C3: magnitude after global normalization -/

lemma coefEval : repulsion 1 (clampDist (dist2 ((1:ℝ), (1:ℝ)) ((0:ℝ), (0:ℝ)))) = 2 := by
  have hd : dist2 ((1:ℝ), (1:ℝ)) ((0:ℝ), (0:ℝ)) = Real.sqrt 2 := by
    unfold dist2
    norm_num
  rw [hd, clampDist_eq_of_ge (le_trans (by norm_num) (one_le_sqrt_of_one_le (by norm_num)))]
  unfold repulsion
  rw [one_mul, Real.sq_sqrt (by norm_num)]

lemma coefEval2 : repulsion 1 (clampDist (dist2 ((0:ℝ), (0:ℝ)) ((1:ℝ), (1:ℝ)))) = 2 := by
  rw [dist2_comm]
  exact coefEval

lemma rawDelta_pos3_0 : rawDelta A3z pos3 1 0 = (4, 4) := by
  unfold rawDelta
  simp only [Fin.sum_univ_three, attraction_eq_zero, sub_zero]
  rw [show pos3 0 = ((1:ℝ), (1:ℝ)) from rfl, show pos3 1 = ((0:ℝ), (0:ℝ)) from rfl,
    show pos3 2 = ((0:ℝ), (0:ℝ)) from rfl, coefEval]
  norm_num

lemma rawDelta_pos3_1 : rawDelta A3z pos3 1 1 = (-2, -2) := by
  unfold rawDelta
  simp only [Fin.sum_univ_three, attraction_eq_zero, sub_zero]
  rw [show pos3 0 = ((1:ℝ), (1:ℝ)) from rfl, show pos3 1 = ((0:ℝ), (0:ℝ)) from rfl,
    show pos3 2 = ((0:ℝ), (0:ℝ)) from rfl, coefEval2]
  norm_num

lemma rawDelta_pos3_2 : rawDelta A3z pos3 1 2 = (-2, -2) := by
  unfold rawDelta
  simp only [Fin.sum_univ_three, attraction_eq_zero, sub_zero]
  rw [show pos3 0 = ((1:ℝ), (1:ℝ)) from rfl, show pos3 1 = ((0:ℝ), (0:ℝ)) from rfl,
    show pos3 2 = ((0:ℝ), (0:ℝ)) from rfl, coefEval2]
  norm_num

lemma colNormFst_pos3 : colNormFst (rawDelta A3z pos3 1) = Real.sqrt 24 := by
  unfold colNormFst
  rw [Fin.sum_univ_three, rawDelta_pos3_0, rawDelta_pos3_1, rawDelta_pos3_2]
  norm_num

lemma colNormSnd_pos3 : colNormSnd (rawDelta A3z pos3 1) = Real.sqrt 24 := by
  unfold colNormSnd
  rw [Fin.sum_univ_three, rawDelta_pos3_0, rawDelta_pos3_1, rawDelta_pos3_2]
  norm_num

lemma clampLen_sqrt24 : clampLen (Real.sqrt 24) = Real.sqrt 24 :=
  clampLen_eq_of_ge (le_trans (by norm_num) (one_le_sqrt_of_one_le (by norm_num)))

lemma colMax_pos3_fst : colMax (fun i => (pos3 i).1) = 1 := by
  apply le_antisymm
  · apply Finset.sup'_le
    intro i _
    fin_cases i <;> norm_num [pos3]
  · exact Finset.le_sup' (fun i => (pos3 i).1) (Finset.mem_univ 0)

lemma colMin_pos3_fst : colMin (fun i => (pos3 i).1) = 0 := by
  apply le_antisymm
  · exact Finset.inf'_le (fun i => (pos3 i).1) (Finset.mem_univ 1)
  · apply Finset.le_inf'
    intro i _
    fin_cases i <;> norm_num [pos3]

lemma colMax_pos3_snd : colMax (fun i => (pos3 i).2) = 1 := by
  apply le_antisymm
  · apply Finset.sup'_le
    intro i _
    fin_cases i <;> norm_num [pos3]
  · exact Finset.le_sup' (fun i => (pos3 i).2) (Finset.mem_univ 0)

lemma colMin_pos3_snd : colMin (fun i => (pos3 i).2) = 0 := by
  apply le_antisymm
  · exact Finset.inf'_le (fun i => (pos3 i).2) (Finset.mem_univ 1)
  · apply Finset.le_inf'
    intro i _
    fin_cases i <;> norm_num [pos3]

/-- The 3-node run started from `pos3` has initial `step_max = 0.1`. -/
lemma initStepMax_pos3 : initStepMax pos3 = 0.1 := by
  unfold initStepMax
  rw [colMax_pos3_fst, colMin_pos3_fst, colMax_pos3_snd, colMin_pos3_snd]
  norm_num

/-- C3 counterexample: the claim bounds every node's scaled displacement by
`step_max`, but the normalization of line 116 is per axis.  In the first
iteration of the run on the empty symmetric 3-node adjacency started from
`pos3` (spread 1, so `step_max = 0.1`), node 0's scaled displacement is
`(0.4/√24, 0.4/√24)`, whose Euclidean magnitude `√(1/75) ≈ 0.115` exceeds
`step_max = 0.1`. -/
theorem c3_counterexample :
    initStepMax pos3 <
      nodeNorm (scaleDelta (rawDelta (adjUsed A3z) pos3 1) (initStepMax pos3) 0) := by
  have hA : adjUsed A3z = A3z := by
    unfold adjUsed
    rw [if_pos (show transposeM A3z = A3z from rfl)]
  rw [hA, initStepMax_pos3]
  have hsc : scaleDelta (rawDelta A3z pos3 1) 0.1 0
      = (4 * 0.1 / Real.sqrt 24, 4 * 0.1 / Real.sqrt 24) := by
    unfold scaleDelta
    rw [rawDelta_pos3_0, colNormFst_pos3, colNormSnd_pos3, clampLen_sqrt24]
  rw [hsc]
  show (0.1:ℝ) < Real.sqrt ((4 * 0.1 / Real.sqrt 24) ^ 2 + (4 * 0.1 / Real.sqrt 24) ^ 2)
  have h24 : Real.sqrt 24 ^ 2 = 24 := Real.sq_sqrt (by norm_num)
  have harg : (4 * (0.1:ℝ) / Real.sqrt 24) ^ 2 + (4 * 0.1 / Real.sqrt 24) ^ 2 = 1 / 75 := by
    rw [div_pow, h24]
    norm_num
  rw [harg]
  rw [show (0.1:ℝ) = Real.sqrt (1 / 100) by
    rw [show (1 / 100 : ℝ) = 0.1 ^ 2 by norm_num, Real.sqrt_sq (by norm_num)]]
  exact Real.sqrt_lt_sqrt (by norm_num) (by norm_num)

/-- C3 (amended): after the per-axis global normalization each node's scaled
displacement is bounded by `step_max` per axis, hence its Euclidean magnitude
is bounded by `√2 · step_max` (not by `step_max`). -/
theorem c3_per_axis_bound {n : ℕ} (delta : Fin n → ℝ × ℝ) (stepMax : ℝ)
    (hs : 0 ≤ stepMax) (i : Fin n) :
    |(scaleDelta delta stepMax i).1| ≤ stepMax ∧
    |(scaleDelta delta stepMax i).2| ≤ stepMax ∧
    nodeNorm (scaleDelta delta stepMax i) ≤ Real.sqrt 2 * stepMax := by
  have h1 : |(scaleDelta delta stepMax i).1| ≤ stepMax :=
    scale_axis_bound _ _ _ (abs_fst_le_colNormFst delta i) hs
  have h2 : |(scaleDelta delta stepMax i).2| ≤ stepMax :=
    scale_axis_bound _ _ _ (abs_snd_le_colNormSnd delta i) hs
  refine ⟨h1, h2, ?_⟩
  have hsq1 : (scaleDelta delta stepMax i).1 ^ 2 ≤ stepMax ^ 2 := by
    rw [← sq_abs]
    exact pow_le_pow_left₀ (abs_nonneg _) h1 2
  have hsq2 : (scaleDelta delta stepMax i).2 ^ 2 ≤ stepMax ^ 2 := by
    rw [← sq_abs]
    exact pow_le_pow_left₀ (abs_nonneg _) h2 2
  unfold nodeNorm
  calc Real.sqrt ((scaleDelta delta stepMax i).1 ^ 2 + (scaleDelta delta stepMax i).2 ^ 2)
      ≤ Real.sqrt (2 * stepMax ^ 2) := Real.sqrt_le_sqrt (by linarith)
    _ = Real.sqrt 2 * stepMax := by
        rw [Real.sqrt_mul (by norm_num), Real.sqrt_sq hs]

/-- Witness for C3 (amended) with a zero displacement array and `step_max = 1`. -/
theorem c3_per_axis_bound_witness :
    ((0:ℝ) ≤ 1) ∧
    (|(scaleDelta pos1 1 0).1| ≤ 1 ∧ |(scaleDelta pos1 1 0).2| ≤ 1 ∧
     nodeNorm (scaleDelta pos1 1 0) ≤ Real.sqrt 2 * 1) :=
  ⟨by norm_num, c3_per_axis_bound pos1 1 (by norm_num) 0⟩
